import Mathlib

/-!
Verification of the CS330 Pintos repository: the filesystem directory layer
(src/filesys/directory.c) embedded from source, and the virtual-memory
demand-paging core, whose data model comes from src/vm/page.h and whose
operations (declared in the header but implemented outside the available
sources) are modelled from the specification.
-/

namespace Pintos

/-! ## Directory layer, embedded from src/filesys/directory.c -/

/-- Maximum length of a file name component (Pintos `NAME_MAX`, declared in
directory.h, which is not among the available sources; the standard Pintos
value is 14). -/
def NAME_MAX : Nat := 14

/-- A single directory entry (`struct dir_entry`): sector number of the
inode, null-terminated name, and the in-use flag. -/
structure dir_entry where
  inode_sector : Nat
  name : String
  in_use : Bool
deriving DecidableEq, Repr

/-- A directory (`struct dir`) together with the on-disk data its inode
reaches: the sector of its own inode, the parent sector stored in
`inode->data.parent`, and the array of directory entries read through
`inode_read_at`. -/
structure dir where
  sector : Nat
  parent : Nat
  entries : List dir_entry
deriving DecidableEq, Repr

/-- The inode handle stored into `*inode` by `dir_lookup`: either a handle
obtained by `inode_reopen` on the directory's own inode, a handle obtained
by `inode_open` on some sector, or the null pointer. -/
inductive InodeRef where
  | reopened (sector : Nat)
  | opened (sector : Nat)
  | null
deriving DecidableEq, Repr

/-- Static `lookup` of directory.c: scan the entry array in offset order and
return the first in-use entry whose name matches, together with its index
(the byte offset divided by `sizeof (struct dir_entry)`). -/
def lookup : List dir_entry → String → Option (Nat × dir_entry)
  | [], _ => none
  | e :: es, name =>
    if e.in_use = true ∧ e.name = name then some (0, e)
    else (lookup es name).map (fun p => (p.1 + 1, p.2))

/-- `dir_lookup` of directory.c: `"."` reopens the directory's own inode and
returns true; `".."` opens the sector stored as the directory's parent and
returns true; otherwise the entry array is scanned and on a hit the entry's
inode sector is opened. The returned pair is (return value, `*inode`). -/
def dir_lookup (d : dir) (name : String) : Bool × InodeRef :=
  if name = "." then (true, .reopened d.sector)
  else if name = ".." then (true, .opened d.parent)
  else
    match lookup d.entries name with
    | some (_, e) => (true, .opened e.inode_sector)
    | none => (false, .null)

/-- The slot-filling loop of `dir_add`: overwrite the first entry whose
`in_use` flag is clear, or append at end of file when every slot is in use.
All three fields of the written entry are set. -/
def insert_entry : List dir_entry → dir_entry → List dir_entry
  | [], e => [e]
  | x :: xs, e => if x.in_use = true then x :: insert_entry xs e else e :: xs

/-- `dir_add` of directory.c: fails on an empty or over-long name, fails if
the name is already present, otherwise writes an in-use entry carrying the
name and the inode sector into the first free slot (or at end of file).
`none` models the false return; `some` carries the updated entry array. -/
def dir_add (entries : List dir_entry) (name : String) (inode_sector : Nat) :
    Option (List dir_entry) :=
  if name = "" ∨ name.length > NAME_MAX then none
  else if (lookup entries name).isSome then none
  else some (insert_entry entries ⟨inode_sector, name, true⟩)

/-- `dir_remove` of directory.c: look the name up; on a miss return false
with everything unchanged; on a hit clear the found entry's `in_use` flag in
place and call `inode_remove` on the entry's inode. The result is (return
value, updated entry array, sector whose inode was marked removed). -/
def dir_remove (entries : List dir_entry) (name : String) :
    Bool × List dir_entry × Option Nat :=
  match lookup entries name with
  | none => (false, entries, none)
  | some (ofs, e) =>
    (true, entries.set ofs { e with in_use := false }, some e.inode_sector)

/-! ## Virtual-memory core

The data model below is embedded from src/vm/page.h (status constants,
`struct spage`, `struct mmap`). The operations declared in that header
(`spage_load`, `spage_create`, `spage_free`, `find_spage`, `stack_growth`)
have no implementation among the available sources, so they are modelled
from the specification. -/

/-- Page size in bytes (Pintos `PGSIZE`). -/
def PGSIZE : Nat := 4096

/-- Status constant `PAGE` (resident) from page.h. -/
def PAGE : Int := 1

/-- Status constant `SWAP` (swapped-out anonymous page) from page.h. -/
def SWAP : Int := 2

/-- Status constant `MM_FILE` (memory-mapped file page) from page.h. -/
def MM_FILE : Int := 3

/-- Status constant `LAZY` (lazily loaded executable page) from page.h. -/
def LAZY : Int := 4

/-- Status constant `SWAP_MM` (mapped page evicted to swap) from page.h. -/
def SWAP_MM : Int := 5

/-- `struct spage` from page.h: one supplemental-page-table record. The
hash element is bookkeeping of the intrusive hash table and carries no
state of its own, so it is not represented. A `struct file *` is modelled
as an optional file identifier. -/
structure spage where
  status : Int
  vaddr : Nat
  valid : Bool
  index : Nat
  writable : Bool
  fd : Int
  file : Option Nat
  offset : Nat
  is_zero : Bool
  is_over : Bool
  length_over : Nat
deriving DecidableEq, Repr

/-- `struct mmap` from page.h: one memory mapping. The list element is
intrusive-list bookkeeping; the owning thread is modelled by its id. -/
structure mmap where
  mapid : Int
  file : Nat
  addr : Nat
  size : Nat
  owner : Nat
deriving DecidableEq, Repr

/-- Round a virtual address down to its page boundary (`pg_round_down`). -/
def pg_round_down (a : Nat) : Nat := a - a % PGSIZE

/-- Modelled from the spec (§4.1 `find`, page.h `find_spage`): return the
tracked record for the page-aligned version of the address, or none. The
hash-indexed SPT is modelled as a list of records with unique keys. -/
def find_spage (spt : List spage) (vaddr : Nat) : Option spage :=
  spt.find? (fun sp => sp.vaddr == pg_round_down vaddr)

/-- Modelled from the spec (§4.1 `create`, page.h `spage_create`): allocate
a record with the given identity and initial status and insert it into the
SPT; fail, returning no record and leaving the SPT untouched, when the
address is already tracked. -/
def spage_create (spt : List spage) (addr : Nat) (status : Int)
    (writable : Bool) : Option spage × List spage :=
  if (find_spage spt addr).isSome then (none, spt)
  else
    let sp : spage :=
      { status := status, vaddr := pg_round_down addr, valid := true,
        index := 0, writable := writable, fd := 0, file := none,
        offset := 0, is_zero := false, is_over := false, length_over := 0 }
    (some sp, sp :: spt)

/-- Modelled from the spec (§6 `read_at`): read `len` bytes of a file,
given as its byte sequence, starting at `offset`; a read past end of file
returns the bytes that exist. -/
def file_read_at (fileBytes : List Nat) (offset len : Nat) : List Nat :=
  (fileBytes.drop offset).take len

/-- Modelled from the spec (§4.2 `LazyExec` row, page.h `spage_load`): the
frame content produced by resolving a fault on a file-backed record. When
`is_over` is set only `length_over` bytes are read from the file at
`offset` (the overhang case); otherwise a full page is read. When `is_zero`
is set the rest of the frame is zero-filled, otherwise the frame's previous
content `frame0` remains beyond the bytes read. -/
def spage_load_content (fileBytes frame0 : List Nat) (sp : spage) :
    List Nat :=
  let bytes :=
    if sp.is_over then file_read_at fileBytes sp.offset sp.length_over
    else file_read_at fileBytes sp.offset PGSIZE
  if sp.is_zero then bytes ++ List.replicate (PGSIZE - bytes.length) 0
  else bytes ++ (frame0.drop bytes.length).take (PGSIZE - bytes.length)

/-- The swap partition: the set of allocated slots, each holding one page
of content, keyed by slot index. -/
structure SwapTable where
  slots : List (Nat × List Nat)
deriving DecidableEq, Repr

/-- Modelled from the spec (§6 `write_slot` after `allocate_slot`): store a
page of content in a fresh slot. -/
def swap_write (tbl : SwapTable) (slot : Nat) (content : List Nat) :
    SwapTable :=
  ⟨(slot, content) :: tbl.slots⟩

/-- Modelled from the spec (§6 `read_slot`): the content held by a slot. -/
def swap_read (tbl : SwapTable) (slot : Nat) : Option (List Nat) :=
  (tbl.slots.find? (fun p => p.1 == slot)).map Prod.snd

/-- Modelled from the spec (§6 `free_slot`): deallocate a slot. -/
def swap_free (tbl : SwapTable) (slot : Nat) : SwapTable :=
  ⟨tbl.slots.filter (fun p => p.1 != slot)⟩

/-- Modelled from the spec (§4.2 eviction): a mapped page goes to
`SwappedMapped`, any other page to `Swapped`; the record's `fd`
distinguishes mmap-backed pages (their mapping fd) from anonymous and
executable pages (fd 0). -/
def evict_status (sp : spage) : Int :=
  if sp.status = MM_FILE ∨ sp.status = SWAP_MM ∨ sp.fd ≠ 0 then SWAP_MM
  else SWAP

/-- Modelled from the spec (§4.1 `swap_slot` "allocates on evict"): evict a
resident record holding frame content `c` into slot `slot`: the content is
written to swap, the record drops residency (`valid := false`) and stores
the slot index. -/
def spage_evict (tbl : SwapTable) (sp : spage) (c : List Nat) (slot : Nat) :
    SwapTable × spage :=
  (swap_write tbl slot c,
   { sp with status := evict_status sp, valid := false, index := slot })

/-- Modelled from the spec (§4.2 `Swapped` row, page.h `spage_load`):
resolving a fault on a swapped record reads one page from the record's
swap slot into a fresh frame, frees the slot, and makes the record
resident again. Fails only if the slot is not allocated. -/
def spage_load_swap (tbl : SwapTable) (sp : spage) :
    Option (SwapTable × spage × List Nat) :=
  match swap_read tbl sp.index with
  | none => none
  | some c =>
    some (swap_free tbl sp.index,
          { sp with status := PAGE, valid := true }, c)

/-- Result of `map_file`: a mapping record together with the `MM_FILE` page
records it creates, or a typed failure. -/
inductive MapFileResult where
  | ok (m : mmap) (pages : List spage)
  | emptyFile
deriving DecidableEq, Repr

/-- Modelled from the spec (§4.4 `map`, page.h `struct mmap`): fail with
`EmptyFile` on a zero-length file; otherwise create
`ceil (file_length / PGSIZE)` records of status `MM_FILE` covering the
contiguous range from `addr`, page `i` reading the file at offset
`i * PGSIZE`; the last record carries the overhang
`file_length mod PGSIZE` when that remainder is non-zero and reads a full
page otherwise. Overlap checking and allocation failure concern state not
modelled here. -/
def map_file (fid : Nat) (file_length : Nat) (addr : Nat) (mapid : Int)
    (owner : Nat) : MapFileResult :=
  if file_length = 0 then .emptyFile
  else
    let page_count := (file_length + PGSIZE - 1) / PGSIZE
    let rem := file_length % PGSIZE
    let pages := (List.range page_count).map (fun i =>
      { status := MM_FILE, vaddr := addr + i * PGSIZE, valid := true,
        index := 0, writable := true, fd := 0, file := some fid,
        offset := i * PGSIZE, is_zero := true,
        is_over := i == page_count - 1 && rem != 0,
        length_over := if i = page_count - 1 ∧ rem ≠ 0 then rem else 0 :
        spage })
    .ok ⟨mapid, fid, addr, file_length, owner⟩ pages

/-- Highest user virtual address plus one (Pintos `PHYS_BASE`,
0xC0000000). -/
def PHYS_BASE : Int := 0xC0000000

/-- Maximum stack size (8 MiB, the conventional Pintos bound on stack
growth). -/
def MAX_STACK_SIZE : Int := 8 * 1024 * 1024

/-- Result of `grow_stack`: a single fresh anonymous page record, or a
fatal access violation. -/
inductive StackGrowthResult where
  | ok (newPage : spage)
  | fatal
deriving DecidableEq, Repr

/-- Modelled from the spec (§4.3, §6 `grow_stack`, page.h `stack_growth`):
given the faulting thread's stack pointer `esp` and the faulting address,
accept when the address is at most one page below the stack pointer (the
plausibility bound of §4.3) and lies inside the maximum stack region below
`PHYS_BASE`; acceptance creates exactly one new zero-filled anonymous
resident page for the faulting address's page; rejection is a fatal access
violation. -/
def stack_growth (esp addr : Int) : StackGrowthResult :=
  if esp - PGSIZE ≤ addr ∧ PHYS_BASE - MAX_STACK_SIZE ≤ addr ∧
      addr < PHYS_BASE then
    .ok { status := PAGE, vaddr := pg_round_down addr.toNat, valid := true,
          index := 0, writable := true, fd := 0, file := none, offset := 0,
          is_zero := true, is_over := false, length_over := 0 }
  else .fatal

/-- The resources outstanding outside the SPT: allocated swap-slot indices
and the frame references of resident pages (identified by the page's
virtual address). -/
structure ResourcePool where
  swap_slots : List Nat
  frames : List Nat
deriving DecidableEq, Repr

/-- Whether a record owns an allocated swap slot: exactly the swapped
statuses. -/
def owns_slot (sp : spage) : Prop := sp.status = SWAP ∨ sp.status = SWAP_MM

instance (sp : spage) : Decidable (owns_slot sp) := by
  unfold owns_slot; infer_instance

/-- Whether a record owns a frame reference: exactly residency. -/
def owns_frame (sp : spage) : Prop := sp.status = PAGE

instance (sp : spage) : Decidable (owns_frame sp) := by
  unfold owns_frame; infer_instance

/-- Modelled from the spec (§4.1 `destroy`, page.h `spage_free` and
`hash_free_func`): releasing one record frees its swap slot if it holds
one and releases its frame if it is resident. -/
def spage_free (pool : ResourcePool) (sp : spage) : ResourcePool :=
  { swap_slots :=
      if owns_slot sp then pool.swap_slots.filter (fun s => s != sp.index)
      else pool.swap_slots,
    frames :=
      if owns_frame sp then pool.frames.filter (fun f => f != sp.vaddr)
      else pool.frames }

/-- Modelled from the spec (§4.1 SPT teardown): destroy every remaining
record, each record's own cleanup running first, and only then release the
SPT structure itself — the result is the remaining resource pool and the
emptied SPT. -/
def spt_destroy (pool : ResourcePool) (spt : List spage) :
    ResourcePool × List spage :=
  (spt.foldl spage_free pool, [])

/-- The five legal values of the `status` field of a record. -/
def validStatus (st : Int) : Prop :=
  st = PAGE ∨ st = SWAP ∨ st = MM_FILE ∨ st = LAZY ∨ st = SWAP_MM

instance (st : Int) : Decidable (validStatus st) := by
  unfold validStatus; infer_instance

/-- The operations on an SPT that touch a record's status: creation, fault
resolution, eviction into a given swap slot, and destruction. -/
inductive VMOp where
  | create (addr : Nat) (st : Int) (w : Bool)
  | resolve (addr : Nat)
  | evict (addr : Nat) (slot : Nat)
  | destroy (addr : Nat)
deriving DecidableEq, Repr

/-- Modelled from the spec (§4.1, §4.2): the effect of one operation on the
records of an SPT. Creation inserts via `spage_create`; fault resolution
makes the faulting record resident; eviction of a resident record sends it
to its swapped status; destruction removes the record. -/
def vm_step (spt : List spage) (op : VMOp) : List spage :=
  match op with
  | .create a st w => (spage_create spt a st w).2
  | .resolve a =>
    spt.map (fun sp =>
      if sp.vaddr == pg_round_down a then
        { sp with status := PAGE, valid := true }
      else sp)
  | .evict a slot =>
    spt.map (fun sp =>
      if sp.vaddr == pg_round_down a && decide (owns_frame sp) then
        { sp with status := evict_status sp, valid := false, index := slot }
      else sp)
  | .destroy a =>
    spt.filter (fun sp => sp.vaddr != pg_round_down a)

/-- A creation operation carries a legal initial status; the other
operations are unconstrained. -/
def opStatusValid : VMOp → Prop
  | .create _ st _ => validStatus st
  | _ => True

instance (op : VMOp) : Decidable (opStatusValid op) := by
  cases op <;> (unfold opStatusValid; infer_instance)

/-! ## Theorems -/

/-- C8: for every directory — whatever its entry array holds, in particular
when no "." or ".." entry exists in it — `dir_lookup` on "." returns true
and stores a reopened handle of the directory's own inode, and `dir_lookup`
on ".." returns true and stores the inode opened at the directory's stored
parent sector; neither result depends on the stored entries. -/
theorem dir_lookup_dot_and_dotdot (s p : Nat) (es : List dir_entry) :
    dir_lookup ⟨s, p, es⟩ "." = (true, .reopened s) ∧
    dir_lookup ⟨s, p, es⟩ ".." = (true, .opened p) := by
  exact ⟨rfl, rfl⟩

/-- C4: once `spage_create` has succeeded for an address, the address is
tracked, and a second `spage_create` on the same address fails by returning
no record and leaves both the SPT and the existing record unaffected. -/
theorem spage_create_already_tracked (spt : List spage) (a : Nat)
    (st st' : Int) (w w' : Bool) (sp : spage) (spt' : List spage)
    (h : spage_create spt a st w = (some sp, spt')) :
    find_spage spt' a = some sp ∧
    spage_create spt' a st' w' = (none, spt') := by
  unfold spage_create at h
  by_cases htr : (find_spage spt a).isSome
  · rw [if_pos htr] at h
    simp at h
  · rw [if_neg htr] at h
    obtain ⟨hsp, hspt⟩ := Prod.mk.injEq .. ▸ h
    have hfind : find_spage spt' a = some sp := by
      subst hspt
      unfold find_spage List.find?
      simp [← hsp, pg_round_down]
    refine ⟨hfind, ?_⟩
    unfold spage_create
    rw [if_pos (by simp [hfind])]

/-- C6: for any plausible stack pointer inside the stack region, a fault 4
bytes below it is accepted and creates exactly one new zero-filled
anonymous resident page, while a fault `MAX_STACK_SIZE + PGSIZE` bytes
below it is rejected as a fatal access violation. -/
theorem stack_growth_bounds (esp : Int)
    (h1 : PHYS_BASE - MAX_STACK_SIZE + PGSIZE ≤ esp)
    (h2 : esp ≤ PHYS_BASE) :
    (∃ pg, stack_growth esp (esp - 4) = .ok pg ∧ pg.status = PAGE ∧
      pg.is_zero = true ∧ pg.file = none ∧ pg.valid = true) ∧
    stack_growth esp (esp - (MAX_STACK_SIZE + PGSIZE)) = .fatal := by
  unfold PHYS_BASE MAX_STACK_SIZE PGSIZE at h1
  unfold PHYS_BASE at h2
  constructor
  · unfold stack_growth
    rw [if_pos]
    · exact ⟨_, rfl, rfl, rfl, rfl, rfl⟩
    · unfold PHYS_BASE MAX_STACK_SIZE PGSIZE
      refine ⟨by omega, by omega, by omega⟩
  · unfold stack_growth
    rw [if_neg]
    unfold PHYS_BASE MAX_STACK_SIZE PGSIZE
    intro hacc
    omega

/-- Witness for C6 at the concrete stack pointer `PHYS_BASE`. -/
theorem stack_growth_bounds_witness :
    (∃ pg, stack_growth PHYS_BASE (PHYS_BASE - 4) = .ok pg ∧
      pg.status = PAGE ∧ pg.is_zero = true ∧ pg.file = none ∧
      pg.valid = true) ∧
    stack_growth PHYS_BASE (PHYS_BASE - (MAX_STACK_SIZE + PGSIZE)) =
      .fatal :=
  stack_growth_bounds PHYS_BASE (by decide) (by decide)

/-- C3: evicting a resident page holding arbitrary content `c` into a fresh
swap slot stores `c` in that slot; resolving the subsequent fault on the
record restores exactly `c` into the new frame, makes the record resident
again, and frees the slot exactly once — the swap table returns to its
pre-eviction state, in which the slot is unallocated. -/
theorem swap_round_trip (tbl : SwapTable) (sp : spage) (c : List Nat)
    (slot : Nat) (_hres : owns_frame sp)
    (hfresh : ∀ p ∈ tbl.slots, p.1 ≠ slot) :
    swap_read (spage_evict tbl sp c slot).1 slot = some c ∧
    spage_load_swap (spage_evict tbl sp c slot).1
        (spage_evict tbl sp c slot).2 =
      some (tbl, { sp with status := PAGE, valid := true, index := slot },
            c) ∧
    swap_read tbl slot = none := by
  refine ⟨?_, ?_, ?_⟩
  · unfold spage_evict swap_write swap_read
    simp
  · unfold spage_evict swap_write spage_load_swap swap_read swap_free
    simp only [List.find?]
    simp only [beq_self_eq_true, Option.map_some]
    have hfilter : tbl.slots.filter (fun p => p.1 != slot) = tbl.slots := by
      apply List.filter_eq_self.mpr
      intro p hp
      simpa using hfresh p hp
    simp [hfilter]
  · unfold swap_read
    rw [List.find?_eq_none.mpr]
    · rfl
    · intro p hp
      simpa using hfresh p hp

/-- Witness for C8 at a concrete directory. -/
theorem dir_lookup_dot_and_dotdot_witness :
    dir_lookup ⟨3, 7, [⟨9, "a", true⟩]⟩ "." = (true, .reopened 3) ∧
    dir_lookup ⟨3, 7, [⟨9, "a", true⟩]⟩ ".." = (true, .opened 7) :=
  dir_lookup_dot_and_dotdot 3 7 [⟨9, "a", true⟩]

/-- Witness for C4 at a concrete SPT. -/
theorem spage_create_already_tracked_witness :
    find_spage [⟨LAZY, 0, true, 0, true, 0, none, 0, false, false, 0⟩] 0 =
      some ⟨LAZY, 0, true, 0, true, 0, none, 0, false, false, 0⟩ ∧
    spage_create [⟨LAZY, 0, true, 0, true, 0, none, 0, false, false, 0⟩] 0
        SWAP false =
      (none, [⟨LAZY, 0, true, 0, true, 0, none, 0, false, false, 0⟩]) :=
  spage_create_already_tracked [] 0 LAZY SWAP true false
    ⟨LAZY, 0, true, 0, true, 0, none, 0, false, false, 0⟩
    [⟨LAZY, 0, true, 0, true, 0, none, 0, false, false, 0⟩] (by decide)

/-- Witness for C3 at concrete content. -/
theorem swap_round_trip_witness :
    swap_read
        (spage_evict ⟨[(4, [9])]⟩
          ⟨PAGE, 0, true, 0, true, 0, none, 0, false, false, 0⟩
          [1, 2, 3] 7).1 7 = some [1, 2, 3] ∧
    spage_load_swap
        (spage_evict ⟨[(4, [9])]⟩
          ⟨PAGE, 0, true, 0, true, 0, none, 0, false, false, 0⟩
          [1, 2, 3] 7).1
        (spage_evict ⟨[(4, [9])]⟩
          ⟨PAGE, 0, true, 0, true, 0, none, 0, false, false, 0⟩
          [1, 2, 3] 7).2 =
      some (⟨[(4, [9])]⟩,
            ⟨PAGE, 0, true, 7, true, 0, none, 0, false, false, 0⟩,
            [1, 2, 3]) ∧
    swap_read ⟨[(4, [9])]⟩ 7 = none :=
  swap_round_trip ⟨[(4, [9])]⟩
    ⟨PAGE, 0, true, 0, true, 0, none, 0, false, false, 0⟩
    [1, 2, 3] 7 (by decide) (by decide)

/-- One VM operation keeps every record's status among the five legal
values, provided a created record starts in a legal status. -/
theorem vm_step_preserves_validStatus (spt : List spage) (op : VMOp)
    (h0 : ∀ sp ∈ spt, validStatus sp.status) (hop : opStatusValid op) :
    ∀ sp ∈ vm_step spt op, validStatus sp.status := by
  intro sp hsp
  cases op with
  | create a st w =>
    simp only [vm_step] at hsp
    unfold spage_create at hsp
    by_cases htr : (find_spage spt a).isSome
    · rw [if_pos htr] at hsp
      exact h0 sp hsp
    · rw [if_neg htr] at hsp
      simp only at hsp
      rcases List.mem_cons.mp hsp with h | h
      · subst h; exact hop
      · exact h0 sp h
  | resolve a =>
    simp only [vm_step] at hsp
    obtain ⟨sp₀, hsp₀, heq⟩ := List.mem_map.mp hsp
    by_cases hc : sp₀.vaddr == pg_round_down a
    · rw [if_pos hc] at heq
      subst heq
      exact Or.inl rfl
    · rw [if_neg hc] at heq
      subst heq
      exact h0 sp₀ hsp₀
  | evict a slot =>
    simp only [vm_step] at hsp
    obtain ⟨sp₀, hsp₀, heq⟩ := List.mem_map.mp hsp
    by_cases hc : (sp₀.vaddr == pg_round_down a && decide (owns_frame sp₀))
      = true
    · rw [if_pos hc] at heq
      subst heq
      unfold evict_status
      by_cases hm : sp₀.status = MM_FILE ∨ sp₀.status = SWAP_MM ∨
        sp₀.fd ≠ 0
      · rw [if_pos hm]
        exact Or.inr (Or.inr (Or.inr (Or.inr rfl)))
      · rw [if_neg hm]
        exact Or.inr (Or.inl rfl)
    · rw [if_neg hc] at heq
      subst heq
      exact h0 sp₀ hsp₀
  | destroy a =>
    simp only [vm_step] at hsp
    exact h0 sp (List.mem_of_mem_filter hsp)

/-- C1: starting from any SPT whose records all carry one of the five
status constants `PAGE`, `SWAP`, `MM_FILE`, `LAZY`, `SWAP_MM`, any sequence
of creations (with a legal initial status), fault resolutions, evictions
and destructions leaves every surviving record in one of those five
states. -/
theorem vm_status_invariant (spt : List spage) (ops : List VMOp)
    (h0 : ∀ sp ∈ spt, validStatus sp.status)
    (hops : ∀ op ∈ ops, opStatusValid op) :
    ∀ sp ∈ ops.foldl vm_step spt, validStatus sp.status := by
  induction ops generalizing spt with
  | nil => exact h0
  | cons op rest ih =>
    rw [List.foldl_cons]
    exact ih (vm_step spt op)
      (vm_step_preserves_validStatus spt op h0
        (hops op (List.mem_cons_self op rest)))
      (fun o ho => hops o (List.mem_cons_of_mem op ho))

/-- Witness for C1: a concrete run that creates a lazy page, resolves a
fault on it, evicts it and finally looks at the surviving record. -/
theorem vm_status_invariant_witness :
    validStatus
      (spage.mk SWAP 0 false 3 true 0 none 0 false false 0).status :=
  vm_status_invariant []
    [.create 0 LAZY true, .resolve 0, .evict 0 3]
    (by decide) (by decide)
    ⟨SWAP, 0, false, 3, true, 0, none, 0, false, false, 0⟩ (by decide)

/-- A `LAZY` record encoding partial-fill length `k` as in page.h: the
overhang flag `is_over` is set exactly when `k` is non-zero, `length_over`
holds `k`, and the remainder is zero-filled. -/
def lazy_record (off k : Nat) : spage :=
  { status := LAZY, vaddr := 0, valid := true, index := 0, writable := true,
    fd := 0, file := some 0, offset := off, is_zero := true,
    is_over := k != 0, length_over := k }

/-- C2: loading a `LAZY` record with partial-fill length `k`, `0 < k <
PGSIZE`, produces a frame of exactly one page whose bytes `[0, k)` equal
the `k` bytes of the backing file starting at the record's offset and whose
bytes `[k, PGSIZE)` are all zero; with `k = 0` a full page is read from the
file. -/
theorem spage_load_lazy_overhang (fileBytes frame0 : List Nat)
    (off k : Nat) (hk : k < PGSIZE)
    (hfile : off + (if k = 0 then PGSIZE else k) ≤ fileBytes.length) :
    (spage_load_content fileBytes frame0 (lazy_record off k)).length =
      PGSIZE ∧
    (∀ i, i < k →
      (spage_load_content fileBytes frame0 (lazy_record off k)).getD i 0 =
        fileBytes.getD (off + i) 0) ∧
    (k ≠ 0 → ∀ i, k ≤ i → i < PGSIZE →
      (spage_load_content fileBytes frame0 (lazy_record off k)).getD i 0 =
        0) ∧
    (k = 0 → ∀ i, i < PGSIZE →
      (spage_load_content fileBytes frame0 (lazy_record off k)).getD i 0 =
        fileBytes.getD (off + i) 0) := by
  have hKPG : (if k = 0 then PGSIZE else k) ≤ PGSIZE := by
    split
    · exact Nat.le_refl _
    · exact Nat.le_of_lt hk
  have hcontent :
      spage_load_content fileBytes frame0 (lazy_record off k) =
        file_read_at fileBytes off (if k = 0 then PGSIZE else k) ++
          List.replicate
            (PGSIZE -
              (file_read_at fileBytes off
                (if k = 0 then PGSIZE else k)).length) 0 := by
    unfold spage_load_content lazy_record
    by_cases hk0 : k = 0
    · subst hk0; simp
    · simp [hk0]
  have hlen :
      (file_read_at fileBytes off (if k = 0 then PGSIZE else k)).length =
        if k = 0 then PGSIZE else k := by
    unfold file_read_at
    rw [List.length_take, List.length_drop]
    omega
  have helem : ∀ i, i < (if k = 0 then PGSIZE else k) →
      (spage_load_content fileBytes frame0 (lazy_record off k)).getD i 0 =
        fileBytes.getD (off + i) 0 := by
    intro i hi
    rw [hcontent, List.getD_append _ _ _ _ (by rw [hlen]; exact hi)]
    unfold file_read_at
    simp only [List.getD_eq_getElem?_getD]
    rw [List.getElem?_take_of_lt hi, List.getElem?_drop]
  have hzero : ∀ i, (if k = 0 then PGSIZE else k) ≤ i → i < PGSIZE →
      (spage_load_content fileBytes frame0 (lazy_record off k)).getD i 0 =
        0 := by
    intro i hi1 _
    rw [hcontent, List.getD_append_right _ _ _ _ (by rw [hlen]; exact hi1)]
    simp
  refine ⟨?_, ?_, ?_, ?_⟩
  · rw [hcontent, List.length_append, hlen, List.length_replicate]
    omega
  · intro i hi
    have hk0 : k ≠ 0 := by omega
    rw [if_neg hk0] at helem
    exact helem i hi
  · intro hk0 i hi1 hi2
    rw [if_neg hk0] at hzero
    exact hzero i hi1 hi2
  · intro hk0 i hi
    subst hk0
    rw [if_pos rfl] at helem
    exact helem i hi

/-- Witness for C2 at a concrete file and overhang length 3. -/
theorem spage_load_lazy_overhang_witness :
    (spage_load_content [1, 2, 3, 4, 5] [] (lazy_record 1 3)).getD 0 0 =
      ([1, 2, 3, 4, 5] : List Nat).getD 1 0 ∧
    (spage_load_content [1, 2, 3, 4, 5] [] (lazy_record 1 3)).getD 3 0 =
      0 :=
  ⟨(spage_load_lazy_overhang [1, 2, 3, 4, 5] [] 1 3 (by decide)
      (by decide)).2.1 0 (by decide),
   (spage_load_lazy_overhang [1, 2, 3, 4, 5] [] 1 3 (by decide)
      (by decide)).2.2.1 (by decide) 3 (by decide) (by decide)⟩

/-- C5: `map_file` fails with `EmptyFile` exactly on a zero-length file;
otherwise it creates records covering the whole file in the fewest pages
(`page_count = ceil (file_length / PGSIZE)`, stated as the two ceiling
inequalities), all of status `MM_FILE`, contiguous from the base address,
and the last record carries the overhang `file_length mod PGSIZE` when
that remainder is non-zero and reads a full page otherwise. -/
theorem map_file_spec (fid len addr : Nat) (mapid : Int) (owner : Nat) :
    (len = 0 ↔ map_file fid len addr mapid owner = .emptyFile) ∧
    (∀ m pages, map_file fid len addr mapid owner = .ok m pages →
      m = ⟨mapid, fid, addr, len, owner⟩ ∧
      len ≤ pages.length * PGSIZE ∧
      (pages.length - 1) * PGSIZE < len ∧
      (∀ i (h : i < pages.length),
        (pages.get ⟨i, h⟩).status = MM_FILE ∧
        (pages.get ⟨i, h⟩).vaddr = addr + i * PGSIZE ∧
        (pages.get ⟨i, h⟩).offset = i * PGSIZE ∧
        (i = pages.length - 1 ∧ len % PGSIZE ≠ 0 →
          (pages.get ⟨i, h⟩).is_over = true ∧
          (pages.get ⟨i, h⟩).length_over = len % PGSIZE) ∧
        (i < pages.length - 1 ∨ len % PGSIZE = 0 →
          (pages.get ⟨i, h⟩).is_over = false ∧
          (pages.get ⟨i, h⟩).length_over = 0))) := by
  have hPG : PGSIZE = 4096 := rfl
  constructor
  · constructor
    · intro h
      unfold map_file
      rw [if_pos h]
    · intro h
      by_contra hne
      unfold map_file at h
      rw [if_neg hne] at h
      simp at h
  · intro m pages h
    by_cases hlen : len = 0
    · unfold map_file at h
      rw [if_pos hlen] at h
      simp at h
    · unfold map_file at h
      rw [if_neg hlen] at h
      simp only [MapFileResult.ok.injEq] at h
      obtain ⟨hm, hpages⟩ := h
      subst hpages
      refine ⟨hm.symm, ?_, ?_, ?_⟩
      · rw [List.length_map, List.length_range, hPG]
        omega
      · rw [List.length_map, List.length_range, hPG]
        omega
      · intro i hi
        have hi' : i < (len + PGSIZE - 1) / PGSIZE := by
          rw [List.length_map, List.length_range] at hi
          exact hi
        simp only [List.get_eq_getElem, List.getElem_map,
          List.getElem_range, List.length_map, List.length_range]
        refine ⟨trivial, trivial, trivial, ?_, ?_⟩
        · intro ⟨hi1, hi2⟩
          constructor
          · simp [hi1, hi2]
          · rw [if_pos ⟨hi1, hi2⟩]
        · intro hcase
          have hnot : ¬(i = (len + PGSIZE - 1) / PGSIZE - 1 ∧
              len % PGSIZE ≠ 0) := by
            rcases hcase with hlt | hz
            · intro ⟨he, _⟩; omega
            · intro ⟨_, hnz⟩; exact hnz hz
          constructor
          · by_cases h1 : i = (len + PGSIZE - 1) / PGSIZE - 1
            · have h2 : len % PGSIZE = 0 := by
                by_contra hnz
                exact hnot ⟨h1, hnz⟩
              simp [h1, h2]
            · simp [h1]
          · rw [if_neg hnot]

/-- Witness for C5: an empty file fails, and a 5000-byte file yields two
pages (the least number covering 5000 bytes). -/
theorem map_file_spec_witness :
    ((0 : Nat) = 0 ↔ map_file 3 0 4096 1 9 = MapFileResult.emptyFile) ∧
    (5000 : Nat) ≤ 2 * PGSIZE ∧ (2 - 1) * PGSIZE < 5000 := by
  refine ⟨(map_file_spec 3 0 4096 1 9).1, ?_⟩
  obtain ⟨-, hle, hlt, -⟩ :=
    (map_file_spec 3 5000 4096 1 9).2 ⟨1, 3, 4096, 5000, 9⟩
      [⟨MM_FILE, 4096, true, 0, true, 0, some 3, 0, true, false, 0⟩,
       ⟨MM_FILE, 8192, true, 0, true, 0, some 3, 4096, true, true, 904⟩]
      (by decide)
  exact ⟨hle, hlt⟩

/-- Releasing one record removes exactly the slots and frames it owns from
the pool. -/
theorem mem_spage_free (pool : ResourcePool) (sp : spage) :
    (∀ s, s ∈ (spage_free pool sp).swap_slots ↔
      s ∈ pool.swap_slots ∧ ¬(owns_slot sp ∧ sp.index = s)) ∧
    (∀ f, f ∈ (spage_free pool sp).frames ↔
      f ∈ pool.frames ∧ ¬(owns_frame sp ∧ sp.vaddr = f)) := by
  constructor
  · intro s
    unfold spage_free
    by_cases ho : owns_slot sp
    · rw [if_pos ho]
      simp only [List.mem_filter, bne_iff_ne, ne_eq]
      constructor
      · intro ⟨h1, h2⟩
        exact ⟨h1, fun ⟨_, he⟩ => h2 he.symm⟩
      · intro ⟨h1, h2⟩
        exact ⟨h1, fun he => h2 ⟨ho, he.symm⟩⟩
    · rw [if_neg ho]
      simp only
      exact ⟨fun h => ⟨h, fun ⟨hc, _⟩ => ho hc⟩, fun ⟨h, _⟩ => h⟩
  · intro f
    unfold spage_free
    by_cases ho : owns_frame sp
    · rw [if_pos ho]
      simp only [List.mem_filter, bne_iff_ne, ne_eq]
      constructor
      · intro ⟨h1, h2⟩
        exact ⟨h1, fun ⟨_, he⟩ => h2 he.symm⟩
      · intro ⟨h1, h2⟩
        exact ⟨h1, fun he => h2 ⟨ho, he.symm⟩⟩
    · rw [if_neg ho]
      simp only
      exact ⟨fun h => ⟨h, fun ⟨hc, _⟩ => ho hc⟩, fun ⟨h, _⟩ => h⟩

/-- Folding `spage_free` over an SPT removes every slot and frame owned by
one of its records. -/
theorem mem_foldl_spage_free (spt : List spage) (pool : ResourcePool) :
    (∀ s, s ∈ (spt.foldl spage_free pool).swap_slots ↔
      s ∈ pool.swap_slots ∧ ∀ sp ∈ spt, ¬(owns_slot sp ∧ sp.index = s)) ∧
    (∀ f, f ∈ (spt.foldl spage_free pool).frames ↔
      f ∈ pool.frames ∧ ∀ sp ∈ spt, ¬(owns_frame sp ∧ sp.vaddr = f)) := by
  induction spt generalizing pool with
  | nil => simp
  | cons sp rest ih =>
    rw [List.foldl_cons]
    constructor
    · intro s
      rw [(ih (spage_free pool sp)).1 s, (mem_spage_free pool sp).1 s]
      constructor
      · intro ⟨⟨h1, h2⟩, h3⟩
        refine ⟨h1, ?_⟩
        intro sp₀ hsp₀
        rcases List.mem_cons.mp hsp₀ with he | hm
        · subst he; exact h2
        · exact h3 sp₀ hm
      · intro ⟨h1, h2⟩
        exact ⟨⟨h1, h2 sp (List.mem_cons_self sp rest)⟩,
          fun sp₀ hm => h2 sp₀ (List.mem_cons_of_mem sp hm)⟩
    · intro f
      rw [(ih (spage_free pool sp)).2 f, (mem_spage_free pool sp).2 f]
      constructor
      · intro ⟨⟨h1, h2⟩, h3⟩
        refine ⟨h1, ?_⟩
        intro sp₀ hsp₀
        rcases List.mem_cons.mp hsp₀ with he | hm
        · subst he; exact h2
        · exact h3 sp₀ hm
      · intro ⟨h1, h2⟩
        exact ⟨⟨h1, h2 sp (List.mem_cons_self sp rest)⟩,
          fun sp₀ hm => h2 sp₀ (List.mem_cons_of_mem sp hm)⟩

/-- C7: destroying an SPT whose records own all the outstanding swap slots
and frame references leaves zero outstanding swap slots and zero
outstanding frame references, and each record's cleanup has completed
before the SPT structure itself is released empty. -/
theorem spt_destroy_complete (pool : ResourcePool) (spt : List spage)
    (hs : ∀ s ∈ pool.swap_slots, ∃ sp ∈ spt, owns_slot sp ∧ sp.index = s)
    (hf : ∀ f ∈ pool.frames, ∃ sp ∈ spt, owns_frame sp ∧ sp.vaddr = f) :
    (spt_destroy pool spt).1.swap_slots = [] ∧
    (spt_destroy pool spt).1.frames = [] ∧
    (spt_destroy pool spt).2 = [] := by
  unfold spt_destroy
  refine ⟨?_, ?_, rfl⟩
  · rw [List.eq_nil_iff_forall_not_mem]
    intro s hmem
    obtain ⟨h1, h2⟩ := (mem_foldl_spage_free spt pool).1 s |>.mp hmem
    obtain ⟨sp, hsp, hown⟩ := hs s h1
    exact h2 sp hsp hown
  · rw [List.eq_nil_iff_forall_not_mem]
    intro f hmem
    obtain ⟨h1, h2⟩ := (mem_foldl_spage_free spt pool).2 f |>.mp hmem
    obtain ⟨sp, hsp, hown⟩ := hf f h1
    exact h2 sp hsp hown

/-- Witness for C7: a two-record SPT of mixed status whose swap slot and
frame are the only outstanding resources. -/
theorem spt_destroy_complete_witness :
    (spt_destroy ⟨[5], [4096]⟩
      [⟨SWAP, 0, false, 5, true, 0, none, 0, false, false, 0⟩,
       ⟨PAGE, 4096, true, 0, true, 0, none, 0, true, false, 0⟩]).1.swap_slots
      = [] ∧
    (spt_destroy ⟨[5], [4096]⟩
      [⟨SWAP, 0, false, 5, true, 0, none, 0, false, false, 0⟩,
       ⟨PAGE, 4096, true, 0, true, 0, none, 0, true, false, 0⟩]).1.frames
      = [] ∧
    (spt_destroy ⟨[5], [4096]⟩
      [⟨SWAP, 0, false, 5, true, 0, none, 0, false, false, 0⟩,
       ⟨PAGE, 4096, true, 0, true, 0, none, 0, true, false, 0⟩]).2 = [] :=
  spt_destroy_complete ⟨[5], [4096]⟩
    [⟨SWAP, 0, false, 5, true, 0, none, 0, false, false, 0⟩,
     ⟨PAGE, 4096, true, 0, true, 0, none, 0, true, false, 0⟩]
    (by decide) (by decide)

/-- C9 counterexample: "." is a non-empty name of legal length not present
in an empty directory, `dir_add` accepts it and stores sector 5, yet
`dir_lookup` on "." short-circuits to a reopened handle of the directory's
own inode (sector 0 here) instead of opening the inode stored at
sector 5. -/
theorem dir_add_dot_lookup_counterexample :
    ("." : String) ≠ "" ∧ ("." : String).length ≤ NAME_MAX ∧
    lookup [] "." = none ∧
    dir_add [] "." 5 = some [⟨5, ".", true⟩] ∧
    dir_lookup ⟨0, 7, [⟨5, ".", true⟩]⟩ "." = (true, .reopened 0) ∧
    InodeRef.reopened 0 ≠ InodeRef.opened 5 := by
  decide

/-- Inserting an in-use entry for a name that has no in-use entry yet makes
the scan find exactly that entry. -/
theorem lookup_insert_entry (es : List dir_entry) (e : dir_entry)
    (hu : e.in_use = true) (h : lookup es e.name = none) :
    ∃ i, lookup (insert_entry es e) e.name = some (i, e) := by
  induction es with
  | nil =>
    refine ⟨0, ?_⟩
    unfold insert_entry lookup
    rw [if_pos ⟨hu, rfl⟩]
  | cons x xs ih =>
    unfold lookup at h
    by_cases hx : x.in_use = true ∧ x.name = e.name
    · rw [if_pos hx] at h
      simp at h
    · rw [if_neg hx] at h
      have hxs : lookup xs e.name = none := by
        cases hc : lookup xs e.name with
        | none => rfl
        | some q => rw [hc] at h; simp at h
      unfold insert_entry
      by_cases hxu : x.in_use = true
      · rw [if_pos hxu]
        obtain ⟨i, hi⟩ := ih hxs
        refine ⟨i + 1, ?_⟩
        unfold lookup
        rw [if_neg hx, hi]
        rfl
      · rw [if_neg hxu]
        refine ⟨0, ?_⟩
        unfold lookup
        rw [if_pos ⟨hu, rfl⟩]

/-- C9 (amended): for every name other than "." and ".." — the two names
`dir_lookup` resolves without consulting the entry array — a successful
`dir_add` of the name with a given inode sector makes a subsequent
`dir_lookup` of that name return true and open the inode stored at that
sector. (Success of `dir_add` already entails that the name is non-empty,
at most `NAME_MAX` characters, and was not present.) -/
theorem dir_add_dir_lookup_roundtrip (s p : Nat)
    (es es' : List dir_entry) (name : String) (sector : Nat)
    (hdot : name ≠ ".") (hdd : name ≠ "..")
    (hadd : dir_add es name sector = some es') :
    dir_lookup ⟨s, p, es'⟩ name = (true, .opened sector) := by
  unfold dir_add at hadd
  by_cases h1 : name = "" ∨ name.length > NAME_MAX
  · rw [if_pos h1] at hadd
    simp at hadd
  · rw [if_neg h1] at hadd
    by_cases h2 : (lookup es name).isSome
    · rw [if_pos h2] at hadd
      simp at hadd
    · rw [if_neg h2] at hadd
      simp only [Option.some.injEq] at hadd
      subst hadd
      have hnone : lookup es name = none := by
        cases hc : lookup es name with
        | none => rfl
        | some q => rw [hc] at h2; simp at h2
      obtain ⟨i, hi⟩ :=
        lookup_insert_entry es ⟨sector, name, true⟩ rfl hnone
      unfold dir_lookup
      rw [if_neg hdot, if_neg hdd]
      simp only
      rw [hi]

/-- Witness for C9 (amended) at a concrete directory and name. -/
theorem dir_add_dir_lookup_roundtrip_witness :
    dir_lookup ⟨0, 7, [⟨5, "abc", true⟩]⟩ "abc" = (true, .opened 5) :=
  dir_add_dir_lookup_roundtrip 0 7 [] [⟨5, "abc", true⟩] "abc" 5
    (by decide) (by decide) (by decide)

/-- The names of the in-use entries of a directory, in scan order. -/
def in_use_names (es : List dir_entry) : List String :=
  (es.filter (fun e => e.in_use)).map (fun e => e.name)

/-- A hit of the scan puts the name among the in-use names. -/
theorem lookup_mem_in_use_names (es : List dir_entry) (name : String)
    (i : Nat) (e : dir_entry) (h : lookup es name = some (i, e)) :
    name ∈ in_use_names es := by
  induction es generalizing i e with
  | nil => simp [lookup] at h
  | cons x xs ih =>
    unfold lookup at h
    by_cases hx : x.in_use = true ∧ x.name = name
    · unfold in_use_names
      rw [List.filter_cons_of_pos (by simp [hx.1]), List.map_cons, hx.2]
      exact List.mem_cons_self _ _
    · rw [if_neg hx] at h
      cases hc : lookup xs name with
      | none => rw [hc] at h; simp at h
      | some q =>
        have hmem := ih q.1 q.2 (by rw [hc])
        unfold in_use_names
        by_cases hxu : x.in_use = true
        · rw [List.filter_cons_of_pos (by simp [hxu]), List.map_cons]
          exact List.mem_cons_of_mem _ hmem
        · rw [List.filter_cons_of_neg (by simp [hxu])]
          exact hmem

/-- When the in-use names are duplicate-free, clearing the in-use flag of
the entry the scan finds makes any further scan for that name miss. -/
theorem lookup_set_clear (es : List dir_entry) (name : String)
    (i : Nat) (e : dir_entry) (hnd : (in_use_names es).Nodup)
    (h : lookup es name = some (i, e)) :
    lookup (es.set i { e with in_use := false }) name = none := by
  induction es generalizing i with
  | nil => simp [lookup] at h
  | cons x xs ih =>
    unfold lookup at h
    by_cases hx : x.in_use = true ∧ x.name = name
    · rw [if_pos hx] at h
      simp only [Option.some.injEq, Prod.mk.injEq] at h
      obtain ⟨hi, he⟩ := h
      subst hi
      subst he
      rw [List.set_cons_zero]
      unfold lookup
      rw [if_neg (by simp)]
      have hxs : lookup xs name = none := by
        cases hc : lookup xs name with
        | none => rfl
        | some q =>
          have hmem : name ∈ in_use_names xs :=
            lookup_mem_in_use_names xs name q.1 q.2 (by rw [hc])
          unfold in_use_names at hnd
          rw [List.filter_cons_of_pos (by simp [hx.1]),
            List.map_cons] at hnd
          have hnotin := (List.nodup_cons.mp hnd).1
          rw [hx.2] at hnotin
          exact absurd hmem hnotin
      rw [hxs]
      rfl
    · rw [if_neg hx] at h
      cases hc : lookup xs name with
      | none => rw [hc] at h; simp at h
      | some q =>
        rw [hc] at h
        simp only [Option.map_some', Option.some.injEq,
          Prod.mk.injEq] at h
        obtain ⟨hi, he⟩ := h
        subst he
        have hnd' : (in_use_names xs).Nodup := by
          unfold in_use_names at hnd ⊢
          by_cases hxu : x.in_use = true
          · rw [List.filter_cons_of_pos (by simp [hxu]),
              List.map_cons] at hnd
            exact (List.nodup_cons.mp hnd).2
          · rw [List.filter_cons_of_neg (by simp [hxu])] at hnd
            exact hnd
        have hih := ih q.1 hnd' (by rw [hc])
        rw [← hi, List.set_cons_succ]
        unfold lookup
        rw [if_neg hx, hih]
        rfl

/-- The scan misses when no in-use entry carries the name. -/
theorem lookup_eq_none_of_no_match (es : List dir_entry) (name : String)
    (h : ∀ e ∈ es, e.in_use = true → e.name ≠ name) :
    lookup es name = none := by
  induction es with
  | nil => rfl
  | cons x xs ih =>
    unfold lookup
    rw [if_neg (fun hc => h x (List.mem_cons_self x xs) hc.1 hc.2),
      ih (fun e he => h e (List.mem_cons_of_mem x he))]
    rfl

/-- C10: for a directory whose in-use entries carry pairwise distinct names
(the shape `dir_add` maintains), `dir_remove` returns false and leaves the
entries unchanged when no in-use entry carries the name; when the scan
finds an entry it returns true, clears exactly that entry's in-use flag,
marks that entry's inode removed, and a subsequent lookup of the name in
the directory misses. -/
theorem dir_remove_spec (es : List dir_entry) (name : String)
    (hnd : (in_use_names es).Nodup) :
    ((∀ e ∈ es, e.in_use = true → e.name ≠ name) →
      dir_remove es name = (false, es, none)) ∧
    (∀ i e, lookup es name = some (i, e) →
      dir_remove es name =
        (true, es.set i { e with in_use := false },
         some e.inode_sector) ∧
      lookup (es.set i { e with in_use := false }) name = none) := by
  constructor
  · intro hno
    unfold dir_remove
    rw [lookup_eq_none_of_no_match es name hno]
  · intro i e h
    refine ⟨?_, lookup_set_clear es name i e hnd h⟩
    unfold dir_remove
    rw [h]

/-- Witness for C10: removing a present name clears its slot and a
subsequent lookup misses; removing an absent name fails and changes
nothing. -/
theorem dir_remove_spec_witness :
    dir_remove [⟨5, "a", true⟩] "b" = (false, [⟨5, "a", true⟩], none) ∧
    dir_remove [⟨5, "a", true⟩] "a" = (true, [⟨5, "a", false⟩], some 5) ∧
    lookup [⟨5, "a", false⟩] "a" = none := by
  refine ⟨(dir_remove_spec [⟨5, "a", true⟩] "b" (by decide)).1 (by decide),
    ?_⟩
  obtain ⟨h1, h2⟩ := (dir_remove_spec [⟨5, "a", true⟩] "a" (by decide)).2
    0 ⟨5, "a", true⟩ (by decide)
  exact ⟨h1, h2⟩

/-- Any in-use name after a slot insertion is either the inserted name or
an in-use name that was already there. -/
theorem mem_in_use_names_insert_entry (es : List dir_entry)
    (e : dir_entry) (n : String)
    (h : n ∈ in_use_names (insert_entry es e)) :
    n = e.name ∨ n ∈ in_use_names es := by
  induction es with
  | nil =>
    unfold insert_entry in_use_names at h
    by_cases hu : e.in_use = true
    · rw [List.filter_cons_of_pos (by simp [hu])] at h
      simp at h
      exact Or.inl h
    · rw [List.filter_cons_of_neg (by simp [hu])] at h
      simp at h
  | cons x xs ih =>
    unfold insert_entry at h
    by_cases hxu : x.in_use = true
    · rw [if_pos hxu] at h
      unfold in_use_names at h
      rw [List.filter_cons_of_pos (by simp [hxu]), List.map_cons] at h
      rcases List.mem_cons.mp h with he | hm
      · exact Or.inr (by
          unfold in_use_names
          rw [List.filter_cons_of_pos (by simp [hxu]), List.map_cons, he]
          exact List.mem_cons_self _ _)
      · rcases ih hm with h1 | h2
        · exact Or.inl h1
        · refine Or.inr ?_
          unfold in_use_names
          rw [List.filter_cons_of_pos (by simp [hxu]), List.map_cons]
          exact List.mem_cons_of_mem _ h2
    · rw [if_neg hxu] at h
      unfold in_use_names at h ⊢
      rw [List.filter_cons_of_neg (by simp [hxu])]
      by_cases heu : e.in_use = true
      · rw [List.filter_cons_of_pos (by simp [heu]), List.map_cons] at h
        rcases List.mem_cons.mp h with he | hm
        · exact Or.inl he
        · exact Or.inr hm
      · rw [List.filter_cons_of_neg (by simp [heu])] at h
        exact Or.inr h

/-- A name among the in-use names is found by the scan. -/
theorem lookup_isSome_of_mem_in_use_names (es : List dir_entry)
    (n : String) (h : n ∈ in_use_names es) :
    (lookup es n).isSome = true := by
  induction es with
  | nil => simp [in_use_names] at h
  | cons x xs ih =>
    unfold lookup
    by_cases hx : x.in_use = true ∧ x.name = n
    · rw [if_pos hx]
      rfl
    · rw [if_neg hx]
      unfold in_use_names at h
      by_cases hxu : x.in_use = true
      · rw [List.filter_cons_of_pos (by simp [hxu]), List.map_cons] at h
        rcases List.mem_cons.mp h with he | hm
        · exact absurd ⟨hxu, he.symm⟩ hx
        · rw [Option.isSome_map']
          exact ih hm
      · rw [List.filter_cons_of_neg (by simp [hxu])] at h
        rw [Option.isSome_map']
        exact ih h

/-- A successful `dir_add` preserves the pairwise distinctness of in-use
names, so the hypothesis of the `dir_remove` theorem holds in every
directory built by `dir_add`. -/
theorem in_use_names_nodup_dir_add (es es' : List dir_entry)
    (name : String) (sector : Nat)
    (hnd : (in_use_names es).Nodup)
    (h : dir_add es name sector = some es') :
    (in_use_names es').Nodup := by
  unfold dir_add at h
  by_cases h1 : name = "" ∨ name.length > NAME_MAX
  · rw [if_pos h1] at h
    simp at h
  · rw [if_neg h1] at h
    by_cases h2 : (lookup es name).isSome
    · rw [if_pos h2] at h
      simp at h
    · rw [if_neg h2] at h
      simp only [Option.some.injEq] at h
      subst h
      have hnone : ∀ xs : List dir_entry,
          (lookup xs name).isSome = false →
          (in_use_names xs).Nodup →
          (in_use_names (insert_entry xs ⟨sector, name, true⟩)).Nodup := by
        intro xs
        induction xs with
        | nil =>
          intro _ _
          unfold insert_entry in_use_names
          rw [List.filter_cons_of_pos (by simp)]
          simp
        | cons x xs₀ ih =>
          intro hs hn
          unfold lookup at hs
          by_cases hx : x.in_use = true ∧ x.name = name
          · rw [if_pos hx] at hs
            simp at hs
          · rw [if_neg hx] at hs
            rw [Option.isSome_map'] at hs
            unfold insert_entry
            by_cases hxu : x.in_use = true
            · rw [if_pos hxu]
              unfold in_use_names at hn ⊢
              rw [List.filter_cons_of_pos (by simp [hxu]),
                List.map_cons] at hn ⊢
              obtain ⟨hx1, hx2⟩ := List.nodup_cons.mp hn
              refine List.nodup_cons.mpr ⟨?_, ih hs hx2⟩
              intro hmem
              rcases mem_in_use_names_insert_entry xs₀
                ⟨sector, name, true⟩ x.name hmem with he | hm
              · exact hx ⟨hxu, he⟩
              · exact hx1 hm
            · rw [if_neg hxu]
              unfold in_use_names at hn ⊢
              rw [List.filter_cons_of_neg (by simp [hxu])] at hn
              rw [List.filter_cons_of_pos (by simp), List.map_cons]
              refine List.nodup_cons.mpr ⟨?_, hn⟩
              intro hmem
              have := lookup_isSome_of_mem_in_use_names xs₀ name hmem
              rw [Bool.eq_false_iff] at hs
              exact hs this
      exact hnone es (Bool.eq_false_iff.mpr h2) hnd

end Pintos
